import Mathlib

/-!
Shallow embedding of manim/mobject/svg/tex_mobject.py.

The embedding models, over explicit data:
- the string normalizer (SingleStringTexMobject.get_modified_expression,
  modify_special_strings, remove_stray_braces);
- the segmenter post-processing (TexMobject.break_up_tex_strings, taking the
  output of the external splitter as input);
- the tree assembler (TexMobject.break_up_by_substrings), where the flat
  render of the whole expression and the per-substring shape counts measured
  by the independent renders are inputs;
- the query and coloring layer (get_parts_by_tex, get_part_by_tex,
  set_color_by_tex, sort_alphabetically).

Python strings are modelled as Lean String values; Python list indexing with
possibly negative indices is modelled with its exact semantics, returning an
IndexError value out of bounds; Python slices are modelled by drop and take,
which share the clamping behaviour of Python slicing.
-/

namespace TexMob

/-- Python str.strip on the character list: drop whitespace from both ends
(ASCII whitespace; the inputs here are TeX strings). -/
def pyStripChars (l : List Char) : List Char :=
  ((l.dropWhile Char.isWhitespace).reverse.dropWhile Char.isWhitespace).reverse

/-- Python str.strip. -/
def pyStrip (s : String) : String := String.mk (pyStripChars s.data)

/-- SingleStringTexMobject.remove_stray_braces: count the two brace
characters; while rights exceed lefts prepend an opening brace, while lefts
exceed rights append a closing brace. -/
def remove_stray_braces (tex : String) : String :=
  if tex.data.count '\x7b' < tex.data.count '\x7d' then
    String.mk (List.replicate (tex.data.count '\x7d' - tex.data.count '\x7b') '\x7b') ++ tex
  else if tex.data.count '\x7d' < tex.data.count '\x7b' then
    tex ++ String.mk (List.replicate (tex.data.count '\x7b' - tex.data.count '\x7d') '\x7d')
  else tex

/-- Python str equality, compared character by character. -/
def pyEq (a b : String) : Bool := a.data == b.data

/-- Python str.endswith, compared on characters. -/
def pyEndsWith (suffix tex : String) : Bool := List.isSuffixOf suffix.data tex.data

/-- Python str.startswith, compared on characters. -/
def pyStartsWith (pre tex : String) : Bool := List.isPrefixOf pre.data tex.data

/-- The should_add_filler disjunction of modify_special_strings. -/
def add_filler_check (tex : String) : Bool :=
  pyEq tex "\\over" || pyEq tex "\\overline" || pyEq tex "\\sqrt" ||
  pyEndsWith "_" tex || pyEndsWith "^" tex || pyEndsWith "dot" tex

/-- Python tex.replace of the two-character pattern of two backslashes by
backslash quad followed by the pattern again, scanning left to right without
overlap, exactly as str.replace does. -/
def replaceDoubleBackslash : List Char → List Char
  | '\\' :: '\\' :: rest =>
      '\\' :: 'q' :: 'u' :: 'a' :: 'd' :: '\\' :: '\\' :: replaceDoubleBackslash rest
  | c :: rest => c :: replaceDoubleBackslash rest
  | [] => []

/-- Python tex.replace of the backslash-left command by backslash-big. -/
def replaceLeftBig : List Char → List Char
  | '\\' :: 'l' :: 'e' :: 'f' :: 't' :: rest =>
      '\\' :: 'b' :: 'i' :: 'g' :: replaceLeftBig rest
  | c :: rest => c :: replaceLeftBig rest
  | [] => []

/-- Python tex.replace of the backslash-right command by backslash-big. -/
def replaceRightBig : List Char → List Char
  | '\\' :: 'r' :: 'i' :: 'g' :: 'h' :: 't' :: rest =>
      '\\' :: 'b' :: 'i' :: 'g' :: replaceRightBig rest
  | c :: rest => c :: replaceRightBig rest
  | [] => []

/-- Python tex.split on the backslash-left command, mirroring str.split:
the list of pieces between non-overlapping occurrences of the pattern. -/
def splitOnLeft : List Char → List (List Char)
  | '\\' :: 'l' :: 'e' :: 'f' :: 't' :: rest => [] :: splitOnLeft rest
  | c :: rest =>
      match splitOnLeft rest with
      | [] => [[c]]
      | p :: ps => (c :: p) :: ps
  | [] => [[]]

/-- Python tex.split on the backslash-right command. -/
def splitOnRight : List Char → List (List Char)
  | '\\' :: 'r' :: 'i' :: 'g' :: 'h' :: 't' :: rest => [] :: splitOnRight rest
  | c :: rest =>
      match splitOnRight rest with
      | [] => [[c]]
      | p :: ps => (c :: p) :: ps
  | [] => [[]]

/-- The characters a stretchy-delimiter command must be followed by to be
counted: parentheses, braces, square brackets, pipe, dot, backslash. -/
def delimChars : List Char := "()\x7b\x7d[]|.\\".data

/-- Count the pieces after the first produced by the split that are nonempty
and start with a delimiter character, as the list comprehension over
tex.split(substr)[1:] does. -/
def countStretchy (pieces : List (List Char)) : Nat :=
  (pieces.drop 1).countP fun p =>
    match p with
    | [] => false
    | c :: _ => delimChars.contains c

/-- Filler insertion stage of modify_special_strings. -/
def fillerStage (tex : String) : String :=
  if add_filler_check tex then tex ++ "\x7b\\quad\x7d" else tex

/-- Total replacement of a bare substack command. -/
def substackStage (tex : String) : String :=
  if pyEq tex "\\substack" then "\\quad" else tex

/-- Total replacement of the empty string by a quad. -/
def emptyStage (tex : String) : String :=
  if pyEq tex "" then "\\quad" else tex

/-- Leading line-break escape stage of modify_special_strings. -/
def lineBreakStage (tex : String) : String :=
  if pyStartsWith "\\\\" tex then String.mk (replaceDoubleBackslash tex.data) else tex

/-- Delimiter balance repair stage: if the counted left and right stretchy
delimiters differ, downgrade all of them to big delimiters (left first, then
right, as the two sequential replace calls do). -/
def stretchyStage (tex : String) : String :=
  if countStretchy (splitOnLeft tex.data) != countStretchy (splitOnRight tex.data) then
    String.mk (replaceRightBig (replaceLeftBig tex.data))
  else tex

/-- All of modify_special_strings up to and excluding the environment
balance check, starting with remove_stray_braces as the source does. -/
def modifyCore (tex : String) : String :=
  stretchyStage (lineBreakStage (emptyStage (substackStage (fillerStage
    (remove_stray_braces tex)))))

/-- Python substring containment over character lists: the pattern occurs as
a contiguous run, tested at every position. -/
def pyInChars (pat : List Char) : List Char → Bool
  | [] => pat.isEmpty
  | c :: rest => List.isPrefixOf pat (c :: rest) || pyInChars pat rest

/-- Python substring containment for strings, the in operator. -/
def pyIn (pat s : String) : Bool := pyInChars pat.data s.data

/-- The environment balance condition: exactly one of the begin and end
markers of the array environment occurs in the string. -/
def env_mismatch (tex : String) : Bool :=
  (pyIn "\\begin\x7barray\x7d" tex) != (pyIn "\\end\x7barray\x7d" tex)

/-- SingleStringTexMobject.modify_special_strings. -/
def modify_special_strings (tex : String) : String :=
  if env_mismatch (modifyCore tex) then "" else modifyCore tex

/-- SingleStringTexMobject.get_modified_expression: prepend the alignment
with a space, strip, then modify_special_strings. -/
def get_modified_expression (alignment tex_string : String) : String :=
  modify_special_strings (pyStrip (alignment ++ " " ++ tex_string))

/-- TexMobject.break_up_tex_strings after the call to the external splitter
(split_string_list_to_isolate_substrings, an external collaborator per the
spec): its output split_list is the argument here. If arg_separator is a
single space each element is stripped; elements equal to the empty string
are then removed. -/
def break_up_tex_strings (arg_separator : String) (split_list : List String) :
    List String :=
  let split_list := if pyEq arg_separator " " then split_list.map pyStrip else split_list
  split_list.filter fun s => !(pyEq s "")

/-- The Python error that list indexing raises when out of bounds. -/
inductive PyError where
  | indexError
deriving DecidableEq

/-- The effective index of Python list indexing: a negative index counts
from the end of the list. -/
def pyIndex (len : Nat) (i : Int) : Int := if i < 0 then i + len else i

/-- Python list indexing with a possibly negative index; an index out of
bounds on either side raises IndexError. -/
def pyGetI {α : Type} (l : List α) (i : Int) : Except PyError α :=
  if 0 ≤ pyIndex l.length i then
    match l[(pyIndex l.length i).toNat]? with
    | some a => .ok a
    | none => .error .indexError
  else .error .indexError

/-- Python list slicing with nonnegative bounds, which clamps silently. -/
def pySlice {α : Type} (l : List α) (i j : Nat) : List α := (l.drop i).take (j - i)

/-- One group of the reassembled tree: either the placeholder branch of
break_up_by_substrings (submobjects replaced by a single VectorizedPoint
moved to the flat leaf pos), or the slice branch (submobjects set to a
contiguous slice of the flat render). -/
inductive TexGroup (α : Type) where
  | placeholder (tex : String) (pos : α)
  | slice (tex : String) (leaves : List α)
deriving DecidableEq

/-- The tag of a group, as get_tex_string returns it. -/
def TexGroup.get_tex_string {α : Type} : TexGroup α → String
  | .placeholder t _ => t
  | .slice t _ => t

/-- The flat leaves a group owns; the placeholder point is synthetic and is
not a flat leaf. -/
def TexGroup.flatLeaves {α : Type} : TexGroup α → List α
  | .placeholder _ _ => []
  | .slice _ l => l

/-- The number of submobjects a group carries: one VectorizedPoint for a
placeholder, the owned slice length otherwise. -/
def TexGroup.leafCount {α : Type} : TexGroup α → Nat
  | .placeholder _ _ => 1
  | .slice _ l => l.length

/-- Whether the group came from the zero-count placeholder branch. -/
def TexGroup.isPlaceholder {α : Type} : TexGroup α → Bool
  | .placeholder _ _ => true
  | .slice _ _ => false

/-- The loop of TexMobject.break_up_by_substrings. flat is self.submobjects
(the flat render of the whole expression, unchanged during the loop); the
first component of each pair is the tex string of a segmented substring and
the second is num_submobs, the shape count its independent render produced.
curr_index is the cursor. A zero count takes the placeholder branch, whose
indexing min(curr_index, len(flat) - 1) is Python indexing and can raise;
a positive count takes the slice flat[curr_index : curr_index + count]. -/
def break_up_aux {α : Type} (flat : List α) :
    Nat → List (String × Nat) → Except PyError (List (TexGroup α))
  | _, [] => .ok []
  | curr_index, (tex, count) :: rest =>
    if count = 0 then
      match pyGetI flat (min (curr_index : Int) ((flat.length : Int) - 1)) with
      | .error e => .error e
      | .ok pos =>
        match break_up_aux flat curr_index rest with
        | .error e => .error e
        | .ok gs => .ok (.placeholder tex pos :: gs)
    else
      match break_up_aux flat (curr_index + count) rest with
      | .error e => .error e
      | .ok gs => .ok (.slice tex (pySlice flat curr_index (curr_index + count)) :: gs)

/-- TexMobject.break_up_by_substrings: walk the substrings with the cursor
starting at 0 and return the new submobject list. -/
def break_up_by_substrings {α : Type} (flat : List α)
    (subs : List (String × Nat)) : Except PyError (List (TexGroup α)) :=
  break_up_aux flat 0 subs

/-- Python str.lower, character by character. -/
def pyLower (s : String) : String := String.mk (s.data.map Char.toLower)

/-- The inner test of TexMobject.get_parts_by_tex: lowercase both strings
when not case_sensitive, then containment when substring else equality. -/
def texMatchTest (substring case_sensitive : Bool) (tex1 tex2 : String) : Bool :=
  let t1 := if case_sensitive then tex1 else pyLower tex1
  let t2 := if case_sensitive then tex2 else pyLower tex2
  if substring then pyIn t1 t2 else pyEq t1 t2

/-- One submobject of the assembled TexMobject as the query and coloring
layer sees it: its tex string tag and its color (colors abstracted to an
arbitrary codomain, here Nat). -/
structure Part where
  tex_string : String
  color : Nat
deriving DecidableEq

/-- TexMobject.get_parts_by_tex over the submobject list: the filtered
comprehension, in submobject order. -/
def get_parts_by_tex (parts : List Part) (tex : String)
    (substring case_sensitive : Bool) : List Part :=
  parts.filter fun m => texMatchTest substring case_sensitive tex m.tex_string

/-- TexMobject.get_part_by_tex: the first match if any, else None. -/
def get_part_by_tex (parts : List Part) (tex : String)
    (substring case_sensitive : Bool) : Option Part :=
  match get_parts_by_tex parts tex substring case_sensitive with
  | [] => none
  | p :: _ => some p

/-- The mutable state of a TexMobject that the fluent mutators touch. -/
structure TexMobjectState where
  submobjects : List Part
deriving DecidableEq

/-- TexMobject.set_color_by_tex: set the color of every matching part (the
parts are aliased into self.submobjects, so the update lands there) and
return self. The second component is the Python return value: some of the
same object. -/
def set_color_by_tex (self : TexMobjectState) (tex : String) (color : Nat)
    (substring case_sensitive : Bool) : TexMobjectState × Option TexMobjectState :=
  let next : TexMobjectState :=
    ⟨self.submobjects.map fun p =>
      if texMatchTest substring case_sensitive tex p.tex_string then
        { p with color := color }
      else p⟩
  (next, some next)

/-- TexMobject.sort_alphabetically: sort self.submobjects in place by
get_tex_string (Python list.sort, stable ascending). The method body has no
return statement, so the Python return value is None. -/
def sort_alphabetically (self : TexMobjectState) :
    TexMobjectState × Option TexMobjectState :=
  (⟨self.submobjects.mergeSort fun a b => decide (a.tex_string ≤ b.tex_string)⟩, none)

/-- A string has as many opening braces as closing braces. -/
def braceBalanced (s : String) : Prop :=
  s.data.count '\x7b' = s.data.count '\x7d'

/-! Lemmas about the assembler. -/

lemma pyGetI_ok_ne_nil {α : Type} {l : List α} {i : Int} {a : α}
    (h : pyGetI l i = .ok a) : l ≠ [] := by
  intro hnil
  subst hnil
  simp only [pyGetI, List.getElem?_nil] at h
  split at h
  · exact Except.noConfusion h
  · exact Except.noConfusion h

lemma pyIndex_min_eq (len : Nat) (hlen : 0 < len) (curr : Nat) :
    pyIndex len (min (curr : Int) ((len : Int) - 1)) =
      min (curr : Int) ((len : Int) - 1) := by
  unfold pyIndex
  rw [if_neg (by omega)]

lemma pyGetI_min_isOk {α : Type} (flat : List α) (hlen : 0 < flat.length)
    (curr : Nat) :
    ∃ a, pyGetI flat (min (curr : Int) ((flat.length : Int) - 1)) = .ok a := by
  unfold pyGetI
  rw [pyIndex_min_eq flat.length hlen curr, if_pos (by omega)]
  have hv : (min (curr : Int) ((flat.length : Int) - 1)).toNat < flat.length := by
    omega
  obtain ⟨a, ha⟩ := List.getElem?_eq_some.mp (List.getElem?_eq_getElem hv)
  rw [List.getElem?_eq_getElem hv]
  exact ⟨_, rfl⟩

lemma pyGetI_min_some {α : Type} {flat : List α} {curr : Nat} {a : α}
    (h : pyGetI flat (min (curr : Int) ((flat.length : Int) - 1)) = .ok a) :
    flat[min curr (flat.length - 1)]? = some a := by
  have hlen : 0 < flat.length :=
    List.length_pos.mpr (pyGetI_ok_ne_nil h)
  unfold pyGetI at h
  rw [pyIndex_min_eq flat.length hlen curr] at h
  rw [if_pos (by omega)] at h
  have hv : (min (curr : Int) ((flat.length : Int) - 1)).toNat =
      min curr (flat.length - 1) := by omega
  rw [hv] at h
  split at h
  case h_1 b hb => rw [hb, Except.ok.inj h]
  case h_2 => exact Except.noConfusion h

lemma break_up_aux_isOk {α : Type} (flat : List α) (hne : flat ≠ []) :
    ∀ (subs : List (String × Nat)) (i : Nat),
      ∃ gs, break_up_aux flat i subs = .ok gs := by
  intro subs
  induction subs with
  | nil => exact fun i => ⟨[], rfl⟩
  | cons tc rest ih =>
    intro i
    obtain ⟨tex, count⟩ := tc
    by_cases hc : count = 0
    · subst hc
      obtain ⟨a, ha⟩ := pyGetI_min_isOk flat (List.length_pos.mpr hne) i
      obtain ⟨gs, hgs⟩ := ih i
      exact ⟨.placeholder tex a :: gs, by simp [break_up_aux, ha, hgs]⟩
    · obtain ⟨gs, hgs⟩ := ih (i + count)
      exact ⟨.slice tex (pySlice flat i (i + count)) :: gs,
        by simp [break_up_aux, if_neg hc, hgs]⟩

lemma break_up_aux_cons_zero {α : Type} {flat : List α} {i : Nat} {tex : String}
    {rest : List (String × Nat)} {gs : List (TexGroup α)}
    (h : break_up_aux flat i ((tex, 0) :: rest) = .ok gs) :
    ∃ pos gs₀, pyGetI flat (min (i : Int) ((flat.length : Int) - 1)) = .ok pos ∧
      break_up_aux flat i rest = .ok gs₀ ∧
      gs = .placeholder tex pos :: gs₀ := by
  simp only [break_up_aux, reduceIte] at h
  split at h
  · exact Except.noConfusion h
  case h_2 pos hpos =>
    split at h
    · exact Except.noConfusion h
    case h_2 gs₀ hgs₀ =>
      exact ⟨pos, gs₀, hpos, hgs₀, (Except.ok.inj h).symm⟩

lemma break_up_aux_cons_pos {α : Type} {flat : List α} {i : Nat} {tex : String}
    {count : Nat} {rest : List (String × Nat)} {gs : List (TexGroup α)}
    (hc : count ≠ 0)
    (h : break_up_aux flat i ((tex, count) :: rest) = .ok gs) :
    ∃ gs₀, break_up_aux flat (i + count) rest = .ok gs₀ ∧
      gs = .slice tex (pySlice flat i (i + count)) :: gs₀ := by
  simp only [break_up_aux] at h
  rw [if_neg hc] at h
  split at h
  · exact Except.noConfusion h
  case h_2 gs₀ hgs₀ =>
    exact ⟨gs₀, hgs₀, (Except.ok.inj h).symm⟩

lemma break_up_aux_map_tex {α : Type} (flat : List α) :
    ∀ (subs : List (String × Nat)) (i : Nat) (gs : List (TexGroup α)),
      break_up_aux flat i subs = .ok gs →
      gs.map TexGroup.get_tex_string = subs.map Prod.fst := by
  intro subs
  induction subs with
  | nil =>
    intro i gs h
    rw [(Except.ok.inj h).symm]
    rfl
  | cons tc rest ih =>
    intro i gs h
    obtain ⟨tex, count⟩ := tc
    by_cases hc : count = 0
    · subst hc
      obtain ⟨pos, gs₀, _, hgs₀, rfl⟩ := break_up_aux_cons_zero h
      simp only [List.map_cons, TexGroup.get_tex_string, ih i gs₀ hgs₀]
    · obtain ⟨gs₀, hgs₀, rfl⟩ := break_up_aux_cons_pos hc h
      simp only [List.map_cons, TexGroup.get_tex_string, ih (i + count) gs₀ hgs₀]

lemma break_up_aux_join {α : Type} (flat : List α) :
    ∀ (subs : List (String × Nat)) (i : Nat) (gs : List (TexGroup α)),
      break_up_aux flat i subs = .ok gs →
      i + (subs.map Prod.snd).sum = flat.length →
      (gs.map TexGroup.flatLeaves).flatten = flat.drop i := by
  intro subs
  induction subs with
  | nil =>
    intro i gs h hsum
    rw [(Except.ok.inj h).symm]
    have hi : i = flat.length := by simpa using hsum
    rw [hi, List.drop_length]
    rfl
  | cons tc rest ih =>
    intro i gs h hsum
    obtain ⟨tex, count⟩ := tc
    by_cases hc : count = 0
    · subst hc
      obtain ⟨pos, gs₀, _, hgs₀, rfl⟩ := break_up_aux_cons_zero h
      have hsum₀ : i + (rest.map Prod.snd).sum = flat.length := by
        simp only [List.map_cons, List.sum_cons] at hsum
        omega
      simpa [TexGroup.flatLeaves] using ih i gs₀ hgs₀ hsum₀
    · obtain ⟨gs₀, hgs₀, rfl⟩ := break_up_aux_cons_pos hc h
      have hsum₀ : (i + count) + (rest.map Prod.snd).sum = flat.length := by
        simp only [List.map_cons, List.sum_cons] at hsum
        omega
      have hrec := ih (i + count) gs₀ hgs₀ hsum₀
      simp only [List.map_cons, List.flatten_cons, hrec, TexGroup.flatLeaves]
      have hdrop : flat.drop (i + count) = (flat.drop i).drop count := by
        rw [List.drop_drop, Nat.add_comm]
      rw [hdrop]
      simp only [pySlice, Nat.add_sub_cancel_left]
      exact List.take_append_drop count (flat.drop i)

lemma break_up_aux_get_group {α : Type} (flat : List α) :
    ∀ (subs : List (String × Nat)) (i : Nat) (gs : List (TexGroup α)),
      break_up_aux flat i subs = .ok gs →
      ∀ (k : Nat) (hk : k < subs.length),
        ((subs.get ⟨k, hk⟩).2 = 0 →
          ∃ pos, pyGetI flat (min ((i + ((subs.map Prod.snd).take k).sum : Nat) : Int)
              ((flat.length : Int) - 1)) = .ok pos ∧
            gs[k]? = some (.placeholder (subs.get ⟨k, hk⟩).1 pos))
        ∧ ((subs.get ⟨k, hk⟩).2 ≠ 0 →
            gs[k]? = some (.slice (subs.get ⟨k, hk⟩).1
              (pySlice flat (i + ((subs.map Prod.snd).take k).sum)
                (i + ((subs.map Prod.snd).take k).sum + (subs.get ⟨k, hk⟩).2)))) := by
  intro subs
  induction subs with
  | nil =>
    intro i gs h k hk
    exact absurd hk (by simp)
  | cons tc rest ih =>
    intro i gs h k hk
    obtain ⟨tex, count⟩ := tc
    by_cases hc : count = 0
    · subst hc
      obtain ⟨pos, gs₀, hpos, hgs₀, rfl⟩ := break_up_aux_cons_zero h
      cases k with
      | zero =>
        refine ⟨fun _ => ⟨pos, ?_, by simp⟩, fun hne0 => absurd rfl hne0⟩
        simpa using hpos
      | succ k =>
        have hk0 : k < rest.length := by simpa using hk
        have hr := ih i gs₀ hgs₀ k hk0
        simpa [List.take_succ_cons] using hr
    · obtain ⟨gs₀, hgs₀, rfl⟩ := break_up_aux_cons_pos hc h
      cases k with
      | zero =>
        refine ⟨fun h0 => absurd h0 hc, fun _ => ?_⟩
        simp
      | succ k =>
        have hk0 : k < rest.length := by simpa using hk
        have hr := ih (i + count) gs₀ hgs₀ k hk0
        simpa [List.take_succ_cons, Nat.add_assoc] using hr

lemma sum_leafCount_eq_flatten_length {α : Type} :
    ∀ gs : List (TexGroup α),
      ((gs.filter fun g => !g.isPlaceholder).map TexGroup.leafCount).sum =
        (gs.map TexGroup.flatLeaves).flatten.length := by
  intro gs
  induction gs with
  | nil => rfl
  | cons g gs ih =>
    cases g with
    | placeholder t p =>
      rw [List.filter_cons_of_neg (by simp [TexGroup.isPlaceholder]),
        List.map_cons, List.flatten_cons,
        show (TexGroup.placeholder t p : TexGroup α).flatLeaves = [] from rfl,
        List.nil_append]
      exact ih
    | slice t l =>
      rw [List.filter_cons_of_pos (by simp [TexGroup.isPlaceholder]),
        List.map_cons, List.sum_cons, List.map_cons, List.flatten_cons,
        List.length_append, ih]
      rfl

/-! Claim theorems about the assembler. -/

/-- C1, corrected: break_up_by_substrings performs no consistency check at
all. Whenever the flat render is nonempty, it returns a tree without raising
anything, even when the sum of the per-substring counts differs from the
number of flat leaves; slices are silently clamped and leftover leaves are
silently dropped. -/
theorem break_up_mismatch_no_error {α : Type} (flat : List α)
    (subs : List (String × Nat))
    (_hmis : (subs.map Prod.snd).sum ≠ flat.length) (hne : flat ≠ []) :
    ∃ gs, break_up_by_substrings flat subs = .ok gs :=
  break_up_aux_isOk flat hne subs 0

/-- C1, counterexample to the claim as stated: one substring reports three
shapes while the whole render has two leaves; the assembler raises no
internal-consistency error and returns a misaligned tree whose single group
owns the clamped two-leaf slice. -/
theorem break_up_mismatch_counterexample :
    ((([("a", 3)] : List (String × Nat)).map Prod.snd).sum ≠
      ([0, 1] : List Nat).length) ∧
    break_up_by_substrings ([0, 1] : List Nat) [("a", 3)] =
      .ok [.slice "a" [0, 1]] :=
  ⟨by decide, rfl⟩

/-- Witness for break_up_mismatch_no_error at a concrete mismatch. -/
theorem break_up_mismatch_no_error_witness :
    ∃ gs, break_up_by_substrings ([5] : List Nat) [("a", 7)] = .ok gs :=
  break_up_mismatch_no_error [5] [("a", 7)] (by decide) (by decide)

/-- C10: on a whole expression whose flat render is empty, a substring with
zero count makes the placeholder branch index the empty submobject list at
min(0, -1) = -1, which raises IndexError instead of producing a tree. -/
theorem break_up_empty_flat_index_error :
    break_up_by_substrings ([] : List Nat) [("x", 0)] = .error .indexError := rfl

/-- C2, amended: in a successful assembly, the group for the k-th substring
is: when its count is zero, a placeholder whose point is moved to the flat
leaf at index min(i, len(flat) - 1) where i is the cursor (the sum of the
counts before it) — the first flat leaf when it is first, but in general the
next unconsumed flat leaf, or the last flat leaf when the cursor is at the
end, not the location of the preceding group; when its count c is positive,
a group owning the Python slice flat[i : i + c], the cursor advancing by c. -/
theorem break_up_group_characterization {α : Type} (flat : List α)
    (subs : List (String × Nat)) (gs : List (TexGroup α))
    (h : break_up_by_substrings flat subs = .ok gs) (k : Nat)
    (hk : k < subs.length) :
    ((subs.get ⟨k, hk⟩).2 = 0 →
      ∃ pos, flat[min (((subs.map Prod.snd).take k).sum) (flat.length - 1)]? =
          some pos ∧
        gs[k]? = some (.placeholder (subs.get ⟨k, hk⟩).1 pos)) ∧
    ((subs.get ⟨k, hk⟩).2 ≠ 0 →
      gs[k]? = some (.slice (subs.get ⟨k, hk⟩).1
        (pySlice flat (((subs.map Prod.snd).take k).sum)
          (((subs.map Prod.snd).take k).sum + (subs.get ⟨k, hk⟩).2)))) := by
  have hg := break_up_aux_get_group flat subs 0 gs h k hk
  refine ⟨fun h0 => ?_, fun hpos => ?_⟩
  · obtain ⟨pos, hpg, hk0⟩ := hg.1 h0
    refine ⟨pos, ?_, hk0⟩
    have hs := pyGetI_min_some hpg
    simpa using hs
  · have hs := hg.2 hpos
    simpa using hs

/-- C2, counterexample to the stated positioning rule: with flat leaves at
10 and 20 and substrings of counts 1, 0, 1, the empty substring is a
placeholder positioned at 20, the flat leaf owned by the FOLLOWING group,
not at 10, the location of the group immediately preceding it. -/
theorem placeholder_position_counterexample :
    break_up_by_substrings ([10, 20] : List Nat) [("a", 1), ("", 0), ("b", 1)] =
      .ok [.slice "a" [10], .placeholder "" 20, .slice "b" [20]] ∧
    (20 : Nat) ≠ 10 :=
  ⟨rfl, by decide⟩

/-- Witness for break_up_group_characterization at the zero-count group of a
concrete assembly. -/
theorem break_up_group_characterization_witness :
    ∃ pos, (([10, 20] : List Nat))[min ((([("a", 1), ("", 0), ("b", 1)] :
        List (String × Nat)).map Prod.snd).take 1).sum
        (([10, 20] : List Nat).length - 1)]? = some pos ∧
      ([TexGroup.slice "a" [10], TexGroup.placeholder "" 20,
        TexGroup.slice "b" [20]] : List (TexGroup Nat))[(1 : Nat)]? =
        some (TexGroup.placeholder (([("a", 1), ("", 0), ("b", 1)] :
          List (String × Nat)).get ⟨1, by decide⟩).1 pos) :=
  (break_up_group_characterization ([10, 20] : List Nat)
    [("a", 1), ("", 0), ("b", 1)]
    [TexGroup.slice "a" [10], TexGroup.placeholder "" 20, TexGroup.slice "b" [20]]
    rfl 1 (by decide)).1 rfl

/-- C5: when the per-substring counts sum to the flat leaf count, the flat
leaves owned by the groups, in order, are exactly the flat render (an
ordered partition into contiguous slices: nothing dropped, nothing shared),
so the summed leaf counts of the non-placeholder groups equal the flat leaf
count, and every placeholder group carries exactly one synthetic leaf. -/
theorem break_up_partition {α : Type} (flat : List α)
    (subs : List (String × Nat)) (gs : List (TexGroup α))
    (h : break_up_by_substrings flat subs = .ok gs)
    (hsum : (subs.map Prod.snd).sum = flat.length) :
    (gs.map TexGroup.flatLeaves).flatten = flat ∧
    ((gs.filter fun g => !g.isPlaceholder).map TexGroup.leafCount).sum =
      flat.length ∧
    ∀ g ∈ gs, g.isPlaceholder = true → g.leafCount = 1 := by
  have hjoin := break_up_aux_join flat subs 0 gs h (by omega)
  rw [List.drop_zero] at hjoin
  refine ⟨hjoin, ?_, ?_⟩
  · rw [sum_leafCount_eq_flatten_length, hjoin]
  · intro g hg hpl
    cases g with
    | placeholder t p => rfl
    | slice t l => exact absurd hpl (by simp [TexGroup.isPlaceholder])

/-- Witness for break_up_partition on a concrete two-leaf assembly. -/
theorem break_up_partition_witness :
    ([TexGroup.slice "a" [7], TexGroup.slice "b" [8]].map
      TexGroup.flatLeaves).flatten = ([7, 8] : List Nat) :=
  (break_up_partition [7, 8] [("a", 1), ("b", 1)]
    [TexGroup.slice "a" [7], TexGroup.slice "b" [8]] rfl (by decide)).1

/-- C6: the tags of the assembled groups, in order, are exactly the
segmented substrings supplied to the assembler, in the same order. -/
theorem break_up_order_preserved {α : Type} (flat : List α)
    (subs : List (String × Nat)) (gs : List (TexGroup α))
    (h : break_up_by_substrings flat subs = .ok gs) :
    gs.map TexGroup.get_tex_string = subs.map Prod.fst :=
  break_up_aux_map_tex flat subs 0 gs h

/-- Witness for break_up_order_preserved on a concrete assembly with a
placeholder group. -/
theorem break_up_order_preserved_witness :
    ([TexGroup.slice "a" ([7] : List Nat),
      TexGroup.placeholder "b" 7].map TexGroup.get_tex_string) =
      ([("a", 1), ("b", 0)] : List (String × Nat)).map Prod.fst :=
  break_up_order_preserved [7] [("a", 1), ("b", 0)]
    [TexGroup.slice "a" [7], TexGroup.placeholder "b" 7] rfl

/-! Lemmas about the string normalizer. -/

lemma data_append (a b : String) : (a ++ b).data = a.data ++ b.data := by
  cases a
  cases b
  rfl

lemma string_eq_empty_iff (s : String) : s = "" ↔ s.data = [] := by
  constructor
  · intro h
    rw [h]
  · intro h
    cases s
    simp only at h
    rw [h]

lemma pyEq_false_ne (s : String) (h : pyEq s "" = false) : s ≠ "" := by
  intro hs
  subst hs
  exact Bool.noConfusion h

lemma remove_stray_braces_balanced (tex : String) :
    braceBalanced (remove_stray_braces tex) := by
  unfold braceBalanced remove_stray_braces
  split
  case isTrue h =>
    rw [data_append, List.count_append, List.count_append]
    rw [show (String.mk (List.replicate
      (tex.data.count '\x7d' - tex.data.count '\x7b') '\x7b')).data =
        List.replicate (tex.data.count '\x7d' - tex.data.count '\x7b') '\x7b'
      from rfl]
    rw [List.count_replicate_self, List.count_replicate, if_neg (by decide)]
    omega
  case isFalse h =>
    split
    case isTrue h2 =>
      rw [data_append, List.count_append, List.count_append]
      rw [show (String.mk (List.replicate
        (tex.data.count '\x7b' - tex.data.count '\x7d') '\x7d')).data =
          List.replicate (tex.data.count '\x7b' - tex.data.count '\x7d') '\x7d'
        from rfl]
      rw [List.count_replicate_self, List.count_replicate, if_neg (by decide)]
      omega
    case isFalse h2 => omega

lemma count_replaceDoubleBackslash (c : Char) (h1 : c ≠ '\\') (h2 : c ≠ 'q')
    (h3 : c ≠ 'u') (h4 : c ≠ 'a') (h5 : c ≠ 'd') (l : List Char) :
    (replaceDoubleBackslash l).count c = l.count c := by
  induction l using replaceDoubleBackslash.induct with
  | case1 rest ih =>
    simp [replaceDoubleBackslash, List.count_cons, Ne.symm h1, Ne.symm h2,
      Ne.symm h3, Ne.symm h4, Ne.symm h5, ih]
  | case2 a rest hne ih =>
    simp [replaceDoubleBackslash, List.count_cons, ih]
  | case3 =>
    rfl

lemma count_replaceLeftBig (c : Char) (h1 : c ≠ '\\') (h2 : c ≠ 'l')
    (h3 : c ≠ 'e') (h4 : c ≠ 'f') (h5 : c ≠ 't') (h6 : c ≠ 'b') (h7 : c ≠ 'i')
    (h8 : c ≠ 'g') (l : List Char) :
    (replaceLeftBig l).count c = l.count c := by
  induction l using replaceLeftBig.induct with
  | case1 rest ih =>
    simp [replaceLeftBig, List.count_cons, Ne.symm h1, Ne.symm h2, Ne.symm h3,
      Ne.symm h4, Ne.symm h5, Ne.symm h6, Ne.symm h7, Ne.symm h8, ih]
  | case2 a rest hne ih =>
    simp [replaceLeftBig, List.count_cons, ih]
  | case3 =>
    rfl

lemma count_replaceRightBig (c : Char) (h1 : c ≠ '\\') (h2 : c ≠ 'r')
    (h3 : c ≠ 'i') (h4 : c ≠ 'g') (h5 : c ≠ 'h') (h6 : c ≠ 't') (h7 : c ≠ 'b')
    (l : List Char) :
    (replaceRightBig l).count c = l.count c := by
  induction l using replaceRightBig.induct with
  | case1 rest ih =>
    simp [replaceRightBig, List.count_cons, Ne.symm h1, Ne.symm h2, Ne.symm h3,
      Ne.symm h4, Ne.symm h5, Ne.symm h6, Ne.symm h7, ih]
  | case2 a rest hne ih =>
    simp [replaceRightBig, List.count_cons, ih]
  | case3 =>
    rfl

lemma fillerStage_balanced (s : String) (h : braceBalanced s) :
    braceBalanced (fillerStage s) := by
  unfold fillerStage
  split
  · unfold braceBalanced at h ⊢
    rw [data_append, List.count_append, List.count_append, h]
    congr 1
  · exact h

lemma substackStage_balanced (s : String) (h : braceBalanced s) :
    braceBalanced (substackStage s) := by
  unfold substackStage
  split
  · unfold braceBalanced
    decide
  · exact h

lemma emptyStage_balanced (s : String) (h : braceBalanced s) :
    braceBalanced (emptyStage s) := by
  unfold emptyStage
  split
  · unfold braceBalanced
    decide
  · exact h

lemma lineBreakStage_balanced (s : String) (h : braceBalanced s) :
    braceBalanced (lineBreakStage s) := by
  unfold lineBreakStage
  split
  · unfold braceBalanced at h ⊢
    rw [show (String.mk (replaceDoubleBackslash s.data)).data =
      replaceDoubleBackslash s.data from rfl]
    rw [count_replaceDoubleBackslash '\x7b' (by decide) (by decide) (by decide)
      (by decide) (by decide)]
    rw [count_replaceDoubleBackslash '\x7d' (by decide) (by decide) (by decide)
      (by decide) (by decide)]
    exact h
  · exact h

lemma stretchyStage_balanced (s : String) (h : braceBalanced s) :
    braceBalanced (stretchyStage s) := by
  unfold stretchyStage
  split
  · unfold braceBalanced at h ⊢
    rw [show (String.mk (replaceRightBig (replaceLeftBig s.data))).data =
      replaceRightBig (replaceLeftBig s.data) from rfl]
    rw [count_replaceRightBig '\x7b' (by decide) (by decide) (by decide)
      (by decide) (by decide) (by decide) (by decide)]
    rw [count_replaceRightBig '\x7d' (by decide) (by decide) (by decide)
      (by decide) (by decide) (by decide) (by decide)]
    rw [count_replaceLeftBig '\x7b' (by decide) (by decide) (by decide)
      (by decide) (by decide) (by decide) (by decide) (by decide)]
    rw [count_replaceLeftBig '\x7d' (by decide) (by decide) (by decide)
      (by decide) (by decide) (by decide) (by decide) (by decide)]
    exact h
  · exact h

lemma modifyCore_balanced (tex : String) : braceBalanced (modifyCore tex) :=
  stretchyStage_balanced _ (lineBreakStage_balanced _ (emptyStage_balanced _
    (substackStage_balanced _ (fillerStage_balanced _
      (remove_stray_braces_balanced tex)))))

lemma modify_special_strings_balanced (tex : String) :
    braceBalanced (modify_special_strings tex) := by
  unfold modify_special_strings
  split
  · unfold braceBalanced
    decide
  · exact modifyCore_balanced tex

lemma replaceDoubleBackslash_eq_nil_iff (l : List Char) :
    replaceDoubleBackslash l = [] ↔ l = [] := by
  induction l using replaceDoubleBackslash.induct with
  | case1 rest ih => simp [replaceDoubleBackslash]
  | case2 a rest hne ih => simp [replaceDoubleBackslash]
  | case3 => simp [replaceDoubleBackslash]

lemma replaceLeftBig_eq_nil_iff (l : List Char) :
    replaceLeftBig l = [] ↔ l = [] := by
  induction l using replaceLeftBig.induct with
  | case1 rest ih => simp [replaceLeftBig]
  | case2 a rest hne ih => simp [replaceLeftBig]
  | case3 => simp [replaceLeftBig]

lemma replaceRightBig_eq_nil_iff (l : List Char) :
    replaceRightBig l = [] ↔ l = [] := by
  induction l using replaceRightBig.induct with
  | case1 rest ih => simp [replaceRightBig]
  | case2 a rest hne ih => simp [replaceRightBig]
  | case3 => simp [replaceRightBig]

lemma emptyStage_ne_empty (s : String) : emptyStage s ≠ "" := by
  unfold emptyStage
  split
  case isTrue h => decide
  case isFalse h => exact pyEq_false_ne s (Bool.of_not_eq_true h)

lemma lineBreakStage_ne_empty (s : String) (h : s ≠ "") :
    lineBreakStage s ≠ "" := by
  unfold lineBreakStage
  split
  · intro hcontra
    rw [string_eq_empty_iff] at hcontra
    rw [show (String.mk (replaceDoubleBackslash s.data)).data =
      replaceDoubleBackslash s.data from rfl] at hcontra
    rw [replaceDoubleBackslash_eq_nil_iff] at hcontra
    exact h ((string_eq_empty_iff s).mpr hcontra)
  · exact h

lemma stretchyStage_ne_empty (s : String) (h : s ≠ "") :
    stretchyStage s ≠ "" := by
  unfold stretchyStage
  split
  · intro hcontra
    rw [string_eq_empty_iff] at hcontra
    rw [show (String.mk (replaceRightBig (replaceLeftBig s.data))).data =
      replaceRightBig (replaceLeftBig s.data) from rfl] at hcontra
    rw [replaceRightBig_eq_nil_iff, replaceLeftBig_eq_nil_iff] at hcontra
    exact h ((string_eq_empty_iff s).mpr hcontra)
  · exact h

lemma modifyCore_ne_empty (tex : String) : modifyCore tex ≠ "" :=
  stretchyStage_ne_empty _ (lineBreakStage_ne_empty _ (emptyStage_ne_empty _))

/-! Claim theorems about the normalizer. -/

/-- C4: for every alignment and every input string, the normalized string
has as many opening braces as closing braces: remove_stray_braces balances
the counts, and every later rewrite of modify_special_strings preserves the
balance. -/
theorem normalize_brace_balanced (alignment t : String) :
    (get_modified_expression alignment t).data.count '\x7b' =
      (get_modified_expression alignment t).data.count '\x7d' :=
  modify_special_strings_balanced (pyStrip (alignment ++ " " ++ t))

/-- C3, amended: the normalized string is non-empty unless the environment
balance check fires (exactly one of the begin and end markers of the array
environment occurs in the otherwise fully processed string), in which case
the result is the empty string. -/
theorem normalize_nonempty_unless_env_blank (alignment t : String)
    (h : env_mismatch (modifyCore (pyStrip (alignment ++ " " ++ t))) = false) :
    get_modified_expression alignment t ≠ "" := by
  unfold get_modified_expression modify_special_strings
  rw [h]
  simp only [Bool.false_eq_true, if_false]
  exact modifyCore_ne_empty _

/-- C3, counterexample: a lone begin-array marker survives every earlier
rewrite and then trips the environment balance check, which blanks the
whole string, so the normalizer returns the empty string. -/
theorem normalize_empty_counterexample :
    get_modified_expression "" "\\begin\x7barray\x7d" = "" := by decide

/-- Witness for normalize_nonempty_unless_env_blank on a plain input. -/
theorem normalize_nonempty_witness : get_modified_expression "" "x" ≠ "" :=
  normalize_nonempty_unless_env_blank "" "x" (by decide)

/-! Lemmas about the segmenter post-processing. -/

lemma dropWhile_head?_false (p : Char → Bool) :
    ∀ (l : List Char) (c : Char), (l.dropWhile p).head? = some c → p c = false := by
  intro l
  induction l with
  | nil =>
    intro c h
    exact absurd h (by simp)
  | cons a l ih =>
    intro c h
    rw [List.dropWhile_cons] at h
    split at h
    · exact ih c h
    case isFalse hpa =>
      obtain rfl : a = c := by simpa using h
      simpa using hpa

lemma pyStripChars_no_trailing (l : List Char) (c : Char)
    (h : (pyStripChars l).getLast? = some c) : c.isWhitespace = false := by
  unfold pyStripChars at h
  rw [List.getLast?_reverse] at h
  exact dropWhile_head?_false Char.isWhitespace _ c h

lemma pyStripChars_no_leading (l : List Char) (c : Char)
    (h : (pyStripChars l).head? = some c) : c.isWhitespace = false := by
  unfold pyStripChars at h
  rw [List.head?_reverse] at h
  set w := (l.dropWhile Char.isWhitespace).reverse.dropWhile Char.isWhitespace
    with hw
  have hwne : w ≠ [] := by
    intro hnil
    rw [hnil] at h
    exact Option.noConfusion h
  have hsuffix : w <:+ (l.dropWhile Char.isWhitespace).reverse :=
    List.dropWhile_suffix Char.isWhitespace
  obtain ⟨t, ht⟩ := hsuffix
  have h2 : (t ++ w).getLast? = some c := by
    rw [List.getLast?_append_of_ne_nil t hwne]
    exact h
  rw [ht, List.getLast?_reverse] at h2
  exact dropWhile_head?_false Char.isWhitespace l c h2

lemma pyEq_true_iff (a b : String) : pyEq a b = true ↔ a = b := by
  unfold pyEq
  rw [beq_iff_eq]
  constructor
  · intro h
    cases a
    cases b
    simp only at h
    rw [h]
  · intro h
    rw [h]

/-- C7: break_up_tex_strings returns the splitter output order-preserved (a
sublist of the stripped list when the separator is a single space, of the
raw list otherwise), with no empty elements remaining, every surviving
element free of leading and trailing whitespace when the separator is a
single space, and exactly equal to the splitter output minus empties: the
element-wise stripped output minus empties when the separator is a single
space (completeness: every element that is non-empty after stripping is
retained, in place), the raw output minus empties for any other separator. -/
theorem break_up_tex_strings_spec (arg_separator : String)
    (split_list : List String) :
    List.Sublist (break_up_tex_strings arg_separator split_list)
      (if arg_separator = " " then split_list.map pyStrip else split_list) ∧
    (∀ s ∈ break_up_tex_strings arg_separator split_list, s ≠ "") ∧
    (arg_separator = " " → ∀ s ∈ break_up_tex_strings arg_separator split_list,
      ∀ c, (s.data.head? = some c → c.isWhitespace = false) ∧
        (s.data.getLast? = some c → c.isWhitespace = false)) ∧
    (arg_separator ≠ " " → break_up_tex_strings arg_separator split_list =
      split_list.filter fun s => !(pyEq s "")) ∧
    (arg_separator = " " → break_up_tex_strings arg_separator split_list =
      (split_list.map pyStrip).filter fun s => !(pyEq s "")) := by
  refine ⟨?_, ?_, ?_, ?_, ?_⟩
  · unfold break_up_tex_strings
    by_cases hsep : arg_separator = " "
    · rw [if_pos hsep, if_pos ((pyEq_true_iff arg_separator " ").mpr hsep)]
      exact List.filter_sublist _
    · rw [if_neg hsep, if_neg (fun hc => hsep ((pyEq_true_iff _ _).mp hc))]
      exact List.filter_sublist _
  · intro s hs
    unfold break_up_tex_strings at hs
    have hmem := (List.mem_filter.mp hs).2
    intro hempty
    subst hempty
    exact Bool.noConfusion (by simpa using hmem)
  · intro hsep s hs c
    subst hsep
    unfold break_up_tex_strings at hs
    rw [if_pos ((pyEq_true_iff " " " ").mpr rfl)] at hs
    have hmem := (List.mem_filter.mp hs).1
    obtain ⟨x, _, rfl⟩ := List.mem_map.mp hmem
    exact ⟨pyStripChars_no_leading x.data c, pyStripChars_no_trailing x.data c⟩
  · intro hsep
    unfold break_up_tex_strings
    rw [if_neg (fun hc => hsep ((pyEq_true_iff _ _).mp hc))]
  · intro hsep
    unfold break_up_tex_strings
    rw [if_pos ((pyEq_true_iff arg_separator " ").mpr hsep)]

/-- Witness for break_up_tex_strings_spec: the space separator strips and
drops elements, and a kept element is non-empty. -/
theorem break_up_tex_strings_spec_witness :
    ("x" : String) ≠ "" ∧ break_up_tex_strings " " [" x ", ""] = ["x"] :=
  ⟨(break_up_tex_strings_spec " " [" x ", ""]).2.1 "x" (by decide), by decide⟩

/-! Claim theorems about the query and coloring layer. -/

/-- C8: get_parts_by_tex returns, in submobject order, exactly the parts
whose tag passes the test (containment of the query in the tag when
substring is on, exact equality otherwise, on lowercased strings when not
case_sensitive); with no matches it returns the empty list, not an error,
and get_part_by_tex then returns none. -/
theorem get_parts_by_tex_spec (parts : List Part) (tex : String)
    (substring case_sensitive : Bool) :
    List.Sublist (get_parts_by_tex parts tex substring case_sensitive) parts ∧
    (∀ m, m ∈ get_parts_by_tex parts tex substring case_sensitive ↔
      m ∈ parts ∧ texMatchTest substring case_sensitive tex m.tex_string = true) ∧
    ((∀ m ∈ parts, texMatchTest substring case_sensitive tex m.tex_string = false) →
      get_parts_by_tex parts tex substring case_sensitive = [] ∧
      get_part_by_tex parts tex substring case_sensitive = none) := by
  refine ⟨List.filter_sublist parts, fun m => List.mem_filter, fun hall => ?_⟩
  have hempty : get_parts_by_tex parts tex substring case_sensitive = [] := by
    unfold get_parts_by_tex
    exact List.filter_eq_nil_iff.mpr fun m hm => by simp [hall m hm]
  refine ⟨hempty, ?_⟩
  unfold get_part_by_tex
  rw [hempty]

/-- Witness for get_parts_by_tex_spec: a query matching nothing yields the
empty list and a none first match. -/
theorem get_parts_by_tex_spec_witness :
    get_parts_by_tex [⟨"y", 0⟩] "x" true true = [] ∧
    get_part_by_tex [⟨"y", 0⟩] "x" true true = none :=
  (get_parts_by_tex_spec [⟨"y", 0⟩] "x" true true).2.2 (by decide)

/-- C9, amended: set_color_by_tex returns a reference to the same updated
object, so coloring calls chain, but sort_alphabetically has no return
statement and returns None: not every fluent mutator returns self. -/
theorem fluent_mutator_returns (self : TexMobjectState) (tex : String)
    (color : Nat) (substring case_sensitive : Bool) :
    (set_color_by_tex self tex color substring case_sensitive).2 =
      some (set_color_by_tex self tex color substring case_sensitive).1 ∧
    (sort_alphabetically self).2 = none :=
  ⟨rfl, rfl⟩

/-- C9, counterexample: sort_alphabetically returns None rather than self,
so chaining on its result is impossible. -/
theorem sort_alphabetically_returns_none :
    (sort_alphabetically ⟨[⟨"b", 0⟩, ⟨"a", 1⟩]⟩).2 = none ∧
    (sort_alphabetically ⟨[⟨"b", 0⟩, ⟨"a", 1⟩]⟩).2 ≠
      some (sort_alphabetically ⟨[⟨"b", 0⟩, ⟨"a", 1⟩]⟩).1 :=
  ⟨rfl, fun h => Option.noConfusion h⟩

end TexMob
